import Mathlib

/-!
Shallow embedding of the impress supervisor (src/impress.js).

The source is a single-file worker-thread supervisor: it computes a worker
population from the configuration, spawns one worker per slot, maintains the
process-wide counters active and starting, routes inter-thread messages
(event / task / invoke), arms a one-shot startup deadline timer, restarts
crashed workers at the same slot, and broadcasts a stop event on shutdown.

Definitions below mirror the source statements; theorems settle the frozen
claims about the specification.
-/

namespace Impress

/-- Configuration surface read by the supervisor core: the number of entries
of server.ports, the server.balancer flag, and workers.pool (poolSize). -/
structure Cfg where
  ports : Nat
  balancer : Bool
  poolSize : Nat
deriving DecidableEq

/-- serversCount = ports.length + (balancer ? 1 : 0), line 71 of the source. -/
def serversCount (c : Cfg) : Nat :=
  c.ports + (if c.balancer then 1 else 0)

/-- schedulerId = serversCount, line 73 of the source. -/
def schedulerId (c : Cfg) : Nat :=
  serversCount c

/-- count = serversCount + schedulerCount + poolSize with schedulerCount = 1,
lines 72 and 75 of the source. -/
def count (c : Cfg) : Nat :=
  serversCount c + 1 + c.poolSize

/-- One spawned worker thread: its slot id and a generation counter
distinguishing successive workers spawned at the same slot. -/
structure Handle where
  slot : Nat
  gen : Nat
deriving DecidableEq

/-- The literal text of the error posted on a failed thread allocation. -/
def noThreadText : String :=
  "No thread available"

/-- Name field selecting the done branch of ITC.invoke. -/
def doneName : String :=
  "done"

/-- Name field selecting the request branch of ITC.invoke. -/
def requestName : String :=
  "request"

/-- The two pool allocation methods the router can call. -/
inductive PoolMethod
  | capture
  | next
deriving DecidableEq

/-- Settled value of the promise returned by a pool method: a handle, a null
resolution (empty pool), or a rejection (capture timeout). -/
inductive PoolResult
  | resolved (h : Option Handle)
  | rejected
deriving DecidableEq

/-- An invoke message: name, reply channel (modelled by a numeric channel
id), and the exclusive flag. -/
structure InvokeMsg where
  name : String
  port : Nat
  exclusive : Bool
deriving DecidableEq

/-- Observable actions of the ITC.invoke handler. -/
inductive ItcAct
  | release (h : Handle)
  | postError (port : Nat) (text : String)
  | forward (h : Handle) (m : InvokeMsg)
deriving DecidableEq

/-- ITC.invoke, lines 132 to 146 of the source. worker is the thread whose
message channel this handler serves, that is, the sender of msg; pool gives
the settled value of pool.capture() or pool.next(). The done branch releases
worker when exclusive; the request branch allocates via capture when
exclusive and next otherwise, forwards msg (with its reply channel) to the
obtained worker on success, posts the no-thread error on the reply channel
on rejection, and does nothing on a null resolution. -/
def invoke (worker : Handle) (msg : InvokeMsg) (pool : PoolMethod → PoolResult) :
    List ItcAct :=
  if msg.name = doneName then
    if msg.exclusive then [ItcAct.release worker] else []
  else if msg.name ≠ requestName then []
  else
    match pool (if msg.exclusive then PoolMethod.capture else PoolMethod.next) with
    | PoolResult.rejected => [ItcAct.postError msg.port noThreadText]
    | PoolResult.resolved none => []
    | PoolResult.resolved (some nxt) => [ItcAct.forward nxt msg]

/-- Claim C1: for an invoke message named request, the router consults
pool.capture() when exclusive is true and pool.next() when exclusive is
false (the result depends on no other method); on success it forwards the
message with its reply channel to the obtained worker, and on capture
failure it posts the no-thread error on the request reply channel and
forwards nothing. -/
theorem c1_request_routing (w : Handle) (port : Nat) (h : Handle)
    (pool pool2 : PoolMethod → PoolResult) :
    (pool PoolMethod.capture = PoolResult.resolved (some h) →
      invoke w ⟨requestName, port, true⟩ pool =
        [ItcAct.forward h ⟨requestName, port, true⟩]) ∧
    (pool PoolMethod.capture = PoolResult.rejected →
      invoke w ⟨requestName, port, true⟩ pool =
        [ItcAct.postError port noThreadText]) ∧
    (pool PoolMethod.next = PoolResult.resolved (some h) →
      invoke w ⟨requestName, port, false⟩ pool =
        [ItcAct.forward h ⟨requestName, port, false⟩]) ∧
    (pool PoolMethod.capture = pool2 PoolMethod.capture →
      invoke w ⟨requestName, port, true⟩ pool =
        invoke w ⟨requestName, port, true⟩ pool2) ∧
    (pool PoolMethod.next = pool2 PoolMethod.next →
      invoke w ⟨requestName, port, false⟩ pool =
        invoke w ⟨requestName, port, false⟩ pool2) := by
  refine ⟨?_, ?_, ?_, ?_, ?_⟩ <;> intro hp <;>
    simp [invoke, doneName, requestName, hp]

/-- Witness for c1_request_routing at concrete pools and handles. -/
theorem c1_request_routing_witness :
    invoke ⟨1, 0⟩ ⟨requestName, 4, true⟩ (fun _ => PoolResult.resolved (some ⟨3, 0⟩)) =
      [ItcAct.forward ⟨3, 0⟩ ⟨requestName, 4, true⟩] ∧
    invoke ⟨1, 0⟩ ⟨requestName, 4, true⟩ (fun _ => PoolResult.rejected) =
      [ItcAct.postError 4 noThreadText] ∧
    invoke ⟨1, 0⟩ ⟨requestName, 4, false⟩ (fun _ => PoolResult.resolved (some ⟨3, 0⟩)) =
      [ItcAct.forward ⟨3, 0⟩ ⟨requestName, 4, false⟩] := by
  refine ⟨?_, ?_, ?_⟩
  · exact (c1_request_routing ⟨1, 0⟩ 4 ⟨3, 0⟩
      (fun _ => PoolResult.resolved (some ⟨3, 0⟩)) (fun _ => PoolResult.rejected)).1 rfl
  · exact (c1_request_routing ⟨1, 0⟩ 4 ⟨3, 0⟩
      (fun _ => PoolResult.rejected) (fun _ => PoolResult.rejected)).2.1 rfl
  · exact (c1_request_routing ⟨1, 0⟩ 4 ⟨3, 0⟩
      (fun _ => PoolResult.resolved (some ⟨3, 0⟩)) (fun _ => PoolResult.rejected)).2.2.1 rfl

/-- Concrete pool resolver whose capture always yields handle slot 5. -/
def capturesFive : PoolMethod → PoolResult :=
  fun _ => PoolResult.resolved (some ⟨5, 0⟩)

/-- Counterexample to claim C2: with a pool whose capture yields the handle
at slot 5, a request from sender slot 2 forwards the work to the slot 5
handle, yet the subsequent exclusive done message processed on the channel
of sender slot 2 releases the sender handle slot 2, not the slot 5 handle
that was obtained for the original request. -/
theorem c2_done_releases_sender_counterexample :
    invoke ⟨2, 0⟩ ⟨requestName, 9, true⟩ capturesFive =
      [ItcAct.forward ⟨5, 0⟩ ⟨requestName, 9, true⟩] ∧
    invoke ⟨2, 0⟩ ⟨doneName, 9, true⟩ capturesFive = [ItcAct.release ⟨2, 0⟩] ∧
    ItcAct.release ⟨5, 0⟩ ∉ invoke ⟨2, 0⟩ ⟨doneName, 9, true⟩ capturesFive ∧
    (⟨2, 0⟩ : Handle) ≠ ⟨5, 0⟩ := by
  refine ⟨by decide, by decide, by decide, by decide⟩

/-- Claim C2 as amended: for an invoke message named done, the handler
releases the sender of the done message (the worker on whose channel the
message arrived) when exclusive is true, and takes no pool action when
exclusive is false. -/
theorem c2_done_release (w : Handle) (port : Nat) (ex : Bool)
    (pool : PoolMethod → PoolResult) :
    invoke w ⟨doneName, port, ex⟩ pool =
      if ex then [ItcAct.release w] else [] := by
  cases ex <;> simp [invoke, doneName]

/-- Name of the lifecycle event counted by the router. -/
def startedName : String :=
  "started"

/-- Fatal message of the post-shutdown protocol-violation branch. -/
def stoppedText : String :=
  "Application server stopped"

/-- Supervisor state: the process-wide counters, the startup timer (holding
the slot id of the worker whose online report armed it), emitted warnings
(the slot ids they name), process exit, the fatal message, the threads
array, per-slot liveness and spawn generation, pool membership, the
scheduler reference, the spawn log (slot ids in spawn order), the slots
that signaled started, and the finalization flag. -/
structure SupState where
  active : Int
  starting : Nat
  timer : Option Nat
  fired : Bool
  warnings : List Nat
  procExit : Option Int
  fatalMsg : Option String
  threads : Nat → Option Handle
  live : Nat → Bool
  gens : Nat → Nat
  pool : List Handle
  scheduler : Option Handle
  spawnLog : List Nat
  startedIds : List Nat
  finalization : Bool

/-- State before any slot is spawned. -/
def initState : SupState where
  active := 0
  starting := 0
  timer := none
  fired := false
  warnings := []
  procExit := none
  fatalMsg := none
  threads := fun _ => none
  live := fun _ => false
  gens := fun _ => 0
  pool := []
  scheduler := none
  spawnLog := []
  startedIds := []
  finalization := false

/-- start(id), lines 92 to 97 of the source: create a worker handle for the
slot, register it into threads[id], store it as the scheduler when
id = schedulerId, add it to the pool when id > schedulerId. The generation
counter stands for the identity of the fresh Worker object. -/
def spawn (c : Cfg) (id : Nat) (s : SupState) : SupState :=
  { s with
    threads := fun j => if j = id then some ⟨id, s.gens id⟩ else s.threads j
    live := fun j => if j = id then true else s.live j
    gens := fun j => if j = id then s.gens id + 1 else s.gens j
    spawnLog := s.spawnLog ++ [id]
    scheduler := if id = schedulerId c then some ⟨id, s.gens id⟩ else s.scheduler
    pool := if schedulerId c < id then s.pool ++ [⟨id, s.gens id⟩] else s.pool }

/-- The boot loop after spawning slots 0..k-1 in ascending order. -/
def bootK (c : Cfg) (k : Nat) : SupState :=
  (List.range k).foldl (fun s id => spawn c id s) initState

/-- Line 155 of the source: for (let id = 0; id < count; id++) start(id). -/
def boot (c : Cfg) : SupState :=
  bootK c (count c)

/-- Supervisor-visible events: a worker thread online event, an ITC event
message carrying a name, a worker exit with a code, and the startup
deadline firing. -/
inductive Ev
  | online (id : Nat)
  | eventMsg (id : Nat) (name : String)
  | exit (id : Nat) (code : Int)
  | deadline
deriving DecidableEq

/-- One supervisor step, from the handlers at lines 99 to 124 of the
source. exit: decrement active, then respawn on a nonzero code, terminate
with code 0 when active reached 0, or report the fatal stop when
active < 0 and id = 0. online: increment starting and arm the startup
timer when starting reached count, recording the arming slot id.
eventMsg: on the started name increment active and cancel an armed timer
when active reached count. deadline: when armed and not yet fired, warn
with the arming slot id if active differs from count. Once procExit is
set the process is gone and nothing further happens. -/
def step (c : Cfg) (s : SupState) (e : Ev) : SupState :=
  if s.procExit.isSome then s
  else
    match e with
    | Ev.exit id code =>
        let s1 := { s with
          active := s.active - 1
          live := fun j => if j = id then false else s.live j }
        if code ≠ 0 then spawn c id s1
        else if s1.active = 0 then { s1 with procExit := some 0 }
        else if s1.active < 0 ∧ id = 0 then
          { s1 with fatalMsg := some stoppedText, procExit := some 1 }
        else s1
    | Ev.online id =>
        let s1 := { s with starting := s.starting + 1 }
        if s1.starting = count c then { s1 with timer := some id } else s1
    | Ev.eventMsg id name =>
        if name ≠ startedName then s
        else
          let s1 := { s with
            active := s.active + 1
            startedIds := s.startedIds ++ [id] }
          if s1.active = (count c : Int) ∧ s.timer.isSome then { s1 with timer := none }
          else s1
    | Ev.deadline =>
        match s.timer with
        | none => s
        | some tid =>
            if s.fired then s
            else if s.active ≠ (count c : Int) then
              { s with fired := true, warnings := s.warnings ++ [tid] }
            else { s with fired := true }

/-- Whether an event can occur: worker events come only from a live slot of
the population while the process runs; the deadline fires only while the
timer is armed and has not fired. -/
def validEv (c : Cfg) (s : SupState) (e : Ev) : Bool :=
  s.procExit.isNone &&
    match e with
    | Ev.online id => decide (id < count c) && s.live id
    | Ev.eventMsg id _ => decide (id < count c) && s.live id
    | Ev.exit id _ => decide (id < count c) && s.live id
    | Ev.deadline => s.timer.isSome && !s.fired

/-- Run a trace of events from a state. -/
def run (c : Cfg) (s : SupState) (tr : List Ev) : SupState :=
  tr.foldl (step c) s

/-- A trace is valid from a state when every event is valid where it
occurs. -/
def validFrom (c : Cfg) (s : SupState) : List Ev → Bool
  | [] => true
  | e :: tr => validEv c s e && validFrom c (step c s e) tr

lemma bootK_succ (c : Cfg) (k : Nat) :
    bootK c (k + 1) = spawn c k (bootK c k) := by
  simp [bootK, List.range_succ]

/-- Shape of the state after the boot loop has spawned slots 0..k-1. -/
lemma bootK_fields (c : Cfg) (k : Nat) :
    (bootK c k).threads = (fun id => if id < k then some ⟨id, 0⟩ else none) ∧
    (bootK c k).gens = (fun id => if id < k then 1 else 0) ∧
    (bootK c k).scheduler =
      (if schedulerId c < k then some ⟨schedulerId c, 0⟩ else none) ∧
    (bootK c k).pool =
      ((List.range k).filter (fun id => decide (schedulerId c < id))).map
        (fun id => (⟨id, 0⟩ : Handle)) ∧
    (bootK c k).spawnLog = List.range k ∧
    (bootK c k).warnings = [] ∧
    (bootK c k).fired = false ∧
    (bootK c k).procExit = none := by
  induction k with
  | zero =>
      refine ⟨?_, ?_, ?_, ?_, ?_, ?_, ?_, ?_⟩ <;> simp [bootK, initState]
  | succ k ih =>
      obtain ⟨ht, hg, hs, hp, hl, hw, hf, hx⟩ := ih
      rw [bootK_succ]
      refine ⟨?_, ?_, ?_, ?_, ?_, ?_, ?_, ?_⟩
      · funext j
        simp only [spawn, ht, hg]
        by_cases hj : j = k
        · subst hj
          simp
        · by_cases hlt : j < k
          · simp [hj, hlt, Nat.lt_succ_of_lt hlt]
          · have h2 : ¬ j < k + 1 := by omega
            simp [hj, hlt, h2]
      · funext j
        simp only [spawn, hg]
        by_cases hj : j = k
        · subst hj
          simp
        · by_cases hlt : j < k
          · simp [hj, hlt, Nat.lt_succ_of_lt hlt]
          · have h2 : ¬ j < k + 1 := by omega
            simp [hj, hlt, h2]
      · simp only [spawn, hg, hs]
        by_cases hk : k = schedulerId c
        · subst hk
          simp
        · by_cases hlt : schedulerId c < k
          · simp [hk, hlt, Nat.lt_succ_of_lt hlt]
          · have h2 : ¬ schedulerId c < k + 1 := by omega
            simp [hk, hlt, h2]
      · simp only [spawn, hg, hp, List.range_succ, List.filter_append,
          List.map_append]
        by_cases hlt : schedulerId c < k
        · simp [hlt]
        · simp [hlt]
      · simp only [spawn, hl, List.range_succ]
      · simp only [spawn, hw]
      · simp only [spawn, hf]
      · simp only [spawn, hx]

/-- Slot ids below a bound never equal the bound or anything above it. -/
lemma range_filter_eq_nil (n m : Nat) (h : n ≤ m) :
    (List.range n).filter (fun id => decide (id = m)) = [] := by
  rw [List.filter_eq_nil_iff]
  intro a ha
  simp only [List.mem_range] at ha
  simp only [decide_eq_true_eq]
  omega

/-- The range of slot ids holds exactly one slot equal to a given id below
the bound. -/
lemma range_filter_eq_singleton (n m : Nat) (h : m < n) :
    (List.range n).filter (fun id => decide (id = m)) = [m] := by
  induction n with
  | zero => omega
  | succ n ih =>
      rw [List.range_succ, List.filter_append]
      by_cases hm : m < n
      · rw [ih hm]
        have hne : ¬ (n = m) := by omega
        simp [hne]
      · have hm2 : m = n := by omega
        subst hm2
        rw [range_filter_eq_nil m m (le_refl m)]
        simp

/-- Claim C5: count = ports.length + (balancer ? 1 : 0) + 1 + poolSize and
schedulerId = serversCount; exactly one slot id of the population equals
schedulerId; after boot the scheduler reference is the slot schedulerId
handle; the pool holds exactly the handles of the slots above schedulerId;
and the boot loop spawns slots 0..count-1 in ascending order. -/
theorem c5_population (c : Cfg) :
    count c = c.ports + (if c.balancer then 1 else 0) + 1 + c.poolSize ∧
    schedulerId c = serversCount c ∧
    (List.range (count c)).filter (fun id => decide (id = schedulerId c)) =
      [schedulerId c] ∧
    (boot c).scheduler = some ⟨schedulerId c, 0⟩ ∧
    (boot c).pool =
      ((List.range (count c)).filter (fun id => decide (schedulerId c < id))).map
        (fun id => (⟨id, 0⟩ : Handle)) ∧
    (boot c).spawnLog = List.range (count c) := by
  have hlt : schedulerId c < count c := by
    simp only [schedulerId, count]
    omega
  obtain ⟨_, _, hs, hp, hl, _, _, _⟩ := bootK_fields c (count c)
  refine ⟨rfl, rfl, range_filter_eq_singleton _ _ hlt, ?_, ?_, ?_⟩
  · rw [show boot c = bootK c (count c) from rfl, hs, if_pos hlt]
  · exact hp
  · exact hl

/-- Message type tag of the stop broadcast. -/
def eventTypeName : String :=
  "event"

/-- Name field of the stop broadcast. -/
def stopName : String :=
  "stop"

/-- Observable actions of the stop routine, in program order: set the
finalization flag, begin closing the logging sink, post a message to one
worker handle, wait for a worker to exit (never emitted by the code, present
so its absence is expressible), await the logging sink close. -/
inductive StopAct
  | setFinalization
  | beginLogClose
  | post (h : Handle) (msgType name : String)
  | waitWorkerExit (h : Handle)
  | awaitLogClose
deriving DecidableEq

/-- stop, lines 83 to 90 of the source: finalization = true, begin
logger.close(), post the event message named stop to the worker of every
slot of the threads array, then await the close. -/
def stopActs (c : Cfg) (s : SupState) : List StopAct :=
  [StopAct.setFinalization, StopAct.beginLogClose] ++
    ((List.range (count c)).filterMap
      (fun id => (s.threads id).map
        (fun w => StopAct.post w eventTypeName stopName))) ++
    [StopAct.awaitLogClose]

/-- Invoking stop: the resulting supervisor state and the ordered actions. -/
def stopRun (c : Cfg) (s : SupState) : SupState × List StopAct :=
  ({ s with finalization := true }, stopActs c s)

/-- Whether a stop action posts a message to a worker. -/
def isPost : StopAct → Bool
  | StopAct.post _ _ _ => true
  | _ => false

lemma filterMap_eq_map_of_some {α β : Type} (l : List α) (f : α → Option β)
    (g : α → β) (h : ∀ a ∈ l, f a = some (g a)) : l.filterMap f = l.map g := by
  induction l with
  | nil => rfl
  | cons a t ih =>
      rw [List.filterMap_cons, h a (List.mem_cons_self a t), List.map_cons,
        ih (fun b hb => h b (List.mem_cons_of_mem a hb))]

/-- Claim C6: invoking shutdown sets finalization, begins closing the
logging sink, posts exactly one event message named stop to the worker of
every slot (count messages, covering all slots, not only pool workers), and
finishes by awaiting the logging sink close, emitting no action that waits
for a worker to exit. -/
theorem c6_stop_broadcast (c : Cfg) :
    (stopRun c (boot c)).1.finalization = true ∧
    (stopRun c (boot c)).2 =
      [StopAct.setFinalization, StopAct.beginLogClose] ++
        (List.range (count c)).map
          (fun id => StopAct.post ⟨id, 0⟩ eventTypeName stopName) ++
        [StopAct.awaitLogClose] ∧
    ((stopRun c (boot c)).2.filter isPost).length = count c ∧
    (stopRun c (boot c)).2.head? = some StopAct.setFinalization ∧
    (stopRun c (boot c)).2.getLast? = some StopAct.awaitLogClose ∧
    (∀ w, StopAct.waitWorkerExit w ∉ (stopRun c (boot c)).2) := by
  have hmap : (stopRun c (boot c)).2 =
      [StopAct.setFinalization, StopAct.beginLogClose] ++
        (List.range (count c)).map
          (fun id => StopAct.post ⟨id, 0⟩ eventTypeName stopName) ++
        [StopAct.awaitLogClose] := by
    simp only [stopRun, stopActs]
    rw [filterMap_eq_map_of_some (List.range (count c)) _
      (fun id => StopAct.post ⟨id, 0⟩ eventTypeName stopName) ?_]
    intro a ha
    rw [show boot c = bootK c (count c) from rfl, (bootK_fields c (count c)).1]
    simp only [List.mem_range] at ha
    simp [ha]
  refine ⟨rfl, hmap, ?_, ?_, ?_, ?_⟩
  · rw [hmap]
    rw [List.filter_append, List.filter_append, List.filter_map]
    rw [show (isPost ∘ fun id => StopAct.post ⟨id, 0⟩ eventTypeName stopName) =
      (fun _ => true) from rfl]
    have h1 : List.filter isPost [StopAct.setFinalization, StopAct.beginLogClose] = [] := rfl
    have h2 : List.filter isPost [StopAct.awaitLogClose] = [] := rfl
    rw [h1, h2]
    simp
  · rw [hmap]
    rfl
  · rw [hmap, List.getLast?_concat]
  · intro w
    rw [hmap]
    simp [List.mem_append, List.mem_map]

/-- The no-action branch of the exit handler: code 0, active left nonzero,
fatal branch not taken. -/
lemma step_exit_noact (c : Cfg) (s : SupState) (id : Nat)
    (h : s.procExit = none) (h0 : s.active - 1 ≠ 0)
    (h1 : ¬(s.active - 1 < 0 ∧ id = 0)) :
    step c s (Ev.exit id 0) =
      { s with
        active := s.active - 1
        live := fun j => if j = id then false else s.live j } := by
  have hx : s.procExit.isSome = false := by simp [h]
  simp [step, hx, h0]
  intro ha hb
  exfalso
  omega

/-- The fatal branch of the exit handler: code 0, active negative, slot 0. -/
lemma step_exit_fatal (c : Cfg) (s : SupState) (id : Nat)
    (h : s.procExit = none) (h0 : s.active - 1 ≠ 0)
    (hlt : s.active - 1 < 0) (hid : id = 0) :
    step c s (Ev.exit id 0) =
      { s with
        active := s.active - 1
        live := fun j => if j = id then false else s.live j
        fatalMsg := some stoppedText
        procExit := some 1 } := by
  have hx : s.procExit.isSome = false := by simp [h]
  simp [step, hx, h0]
  intro himp
  exact absurd hid (himp (by omega))

/-- Claim C3: the exit handler decrements active; on a nonzero code it
spawns exactly one replacement at the same slot (the spawn log grows by
that one slot, every other slot of the threads array is untouched) and the
process keeps running; on code 0 with active reaching 0 it terminates the
process with exit code 0; otherwise, apart from the fatal branch for
active < 0 at slot 0, it neither respawns nor exits. -/
theorem c3_exit_transitions (c : Cfg) (s : SupState) (id : Nat) (code : Int)
    (h : s.procExit = none) :
    (step c s (Ev.exit id code)).active = s.active - 1 ∧
    (code ≠ 0 →
      (step c s (Ev.exit id code)).spawnLog = s.spawnLog ++ [id] ∧
      (step c s (Ev.exit id code)).threads id = some ⟨id, s.gens id⟩ ∧
      (step c s (Ev.exit id code)).live id = true ∧
      (∀ j, j ≠ id → (step c s (Ev.exit id code)).threads j = s.threads j) ∧
      (step c s (Ev.exit id code)).procExit = none) ∧
    (code = 0 → s.active - 1 = 0 →
      (step c s (Ev.exit id code)).procExit = some 0) ∧
    (code = 0 → s.active - 1 ≠ 0 → ¬(s.active - 1 < 0 ∧ id = 0) →
      (step c s (Ev.exit id code)).spawnLog = s.spawnLog ∧
      (step c s (Ev.exit id code)).procExit = none ∧
      (step c s (Ev.exit id code)).fatalMsg = s.fatalMsg ∧
      (step c s (Ev.exit id code)).threads = s.threads) ∧
    (code = 0 → s.active - 1 ≠ 0 → s.active - 1 < 0 → id = 0 →
      (step c s (Ev.exit id code)).fatalMsg = some stoppedText ∧
      (step c s (Ev.exit id code)).procExit = some 1 ∧
      (step c s (Ev.exit id code)).spawnLog = s.spawnLog) := by
  have hx : s.procExit.isSome = false := by simp [h]
  refine ⟨?_, ?_, ?_, ?_, ?_⟩
  · simp only [step, hx, Bool.false_eq_true, if_false]
    split
    · simp [spawn]
    · split
      · rfl
      · split
        · rfl
        · rfl
  · intro hc
    simp only [step, hx, Bool.false_eq_true, if_false, if_pos hc]
    refine ⟨by simp [spawn], by simp [spawn], by simp [spawn], ?_, by simp [spawn, h]⟩
    intro j hj
    simp [spawn, hj]
  · intro hc h0
    simp [step, hx, hc, h0]
  · intro hc h0 h1
    subst hc
    rw [step_exit_noact c s id h h0 h1]
    exact ⟨rfl, h, rfl, rfl⟩
  · intro hc h0 hlt hid
    subst hc
    rw [step_exit_fatal c s id h h0 hlt hid]
    exact ⟨rfl, rfl, rfl⟩

/-- Example configuration: no ports, no balancer, pool size 1; hence
count = 2 and schedulerId = 0, slot 1 being the only pool worker. -/
def cfgA : Cfg :=
  ⟨0, false, 1⟩

/-- Example configuration: no ports, no balancer, empty pool; count = 1. -/
def cfgB : Cfg :=
  ⟨0, false, 0⟩

/-- Reachable state of cfgA in which both workers have signaled started. -/
def sBothStarted : SupState :=
  run cfgA (boot cfgA) [Ev.eventMsg 0 startedName, Ev.eventMsg 1 startedName]

/-- Witness for c3_exit_transitions: the four exit branches at concrete
reachable states of cfgA. -/
theorem c3_exit_transitions_witness :
    (step cfgA (boot cfgA) (Ev.exit 1 7)).active = (boot cfgA).active - 1 ∧
    (step cfgA (boot cfgA) (Ev.exit 1 7)).spawnLog = (boot cfgA).spawnLog ++ [1] ∧
    (step cfgA (run cfgA (boot cfgA) [Ev.eventMsg 0 startedName])
      (Ev.exit 1 0)).procExit = some 0 ∧
    (step cfgA sBothStarted (Ev.exit 1 0)).procExit = none ∧
    (step cfgA sBothStarted (Ev.exit 1 0)).spawnLog = sBothStarted.spawnLog ∧
    (step cfgA (boot cfgA) (Ev.exit 0 0)).fatalMsg = some stoppedText := by
  have hA := c3_exit_transitions cfgA (boot cfgA) 1 7 (by decide)
  have hB := c3_exit_transitions cfgA (run cfgA (boot cfgA)
    [Ev.eventMsg 0 startedName]) 1 0 (by decide)
  have hC := c3_exit_transitions cfgA sBothStarted 1 0 (by decide)
  have hD := c3_exit_transitions cfgA (boot cfgA) 0 0 (by decide)
  refine ⟨hA.1, (hA.2.1 (by decide)).1, ?_, ?_, ?_, ?_⟩
  · exact hB.2.2.1 rfl (by decide)
  · exact (hC.2.2.2.1 rfl (by decide) (by decide)).2.1
  · exact (hC.2.2.2.1 rfl (by decide) (by decide)).1
  · exact (hD.2.2.2.2 rfl (by decide) (by decide) rfl).1

/-- Claim C9: when a pool-worker slot (id above schedulerId) exits with a
nonzero code, the respawn appends the replacement handle to the pool while
no handle is removed: the pool grows by exactly one and every previous
member, the exited handle included, is still a member, so the pool can hold
several handles of the same slot. -/
theorem c9_pool_add_only (c : Cfg) (s : SupState) (id : Nat) (code : Int)
    (hOld : Handle) (h : s.procExit = none) (hid : schedulerId c < id)
    (hc : code ≠ 0) (hmem : hOld ∈ s.pool) :
    (step c s (Ev.exit id code)).pool = s.pool ++ [⟨id, s.gens id⟩] ∧
    (step c s (Ev.exit id code)).pool.length = s.pool.length + 1 ∧
    hOld ∈ (step c s (Ev.exit id code)).pool ∧
    (step c s (Ev.exit id code)).threads id = some ⟨id, s.gens id⟩ := by
  have hx : s.procExit.isSome = false := by simp [h]
  have hp : (step c s (Ev.exit id code)).pool = s.pool ++ [⟨id, s.gens id⟩] := by
    simp [step, hx, hc, spawn, hid]
  refine ⟨hp, by rw [hp]; simp, ?_, by simp [step, hx, hc, spawn]⟩
  rw [hp]
  exact List.mem_append_left _ hmem

/-- Witness for c9_pool_add_only: after boot of cfgA the pool is the slot 1
handle of generation 0; the crash of slot 1 respawns it and the pool then
holds both generations of slot 1, the exited one included, while the
threads array holds only the replacement. -/
theorem c9_pool_add_only_witness :
    (step cfgA (boot cfgA) (Ev.exit 1 7)).pool = [(⟨1, 0⟩ : Handle), ⟨1, 1⟩] ∧
    (⟨1, 0⟩ : Handle) ∈ (step cfgA (boot cfgA) (Ev.exit 1 7)).pool ∧
    (step cfgA (boot cfgA) (Ev.exit 1 7)).threads 1 = some ⟨1, 1⟩ := by
  have h9 := c9_pool_add_only cfgA (boot cfgA) 1 7 ⟨1, 0⟩ (by decide)
    (by decide) (by decide) (by decide)
  exact ⟨h9.1.trans (by decide), h9.2.2.1, h9.2.2.2.trans (by decide)⟩

/-- A slot with no live worker never gets one again along any valid trace:
respawns happen only from the exit of a live worker at that same slot. -/
lemma dead_stays_dead (c : Cfg) (id : Nat) :
    ∀ (tr : List Ev) (s : SupState), s.live id = false →
      validFrom c s tr = true → (run c s tr).live id = false := by
  intro tr
  induction tr with
  | nil =>
      intro s h _
      exact h
  | cons e tr ih =>
      intro s h hv
      simp only [validFrom, Bool.and_eq_true] at hv
      obtain ⟨hve, hvt⟩ := hv
      refine ih (step c s e) ?_ hvt
      cases e with
      | online i =>
          simp only [step]
          split
          · exact h
          · split
            · exact h
            · exact h
      | eventMsg i name =>
          simp only [step]
          split
          · exact h
          · split
            · exact h
            · split
              · exact h
              · exact h
      | deadline =>
          simp only [step]
          split
          · exact h
          · split
            · exact h
            · split
              · exact h
              · split
                · exact h
                · exact h
      | exit i code =>
          have hlive : s.live i = true := by
            simp only [validEv, Bool.and_eq_true] at hve
            exact hve.2.2
          have hne : id ≠ i := by
            intro hEq
            rw [hEq, hlive] at h
            cases h
          simp only [step]
          split
          · exact h
          · split
            · show (spawn c i _).live id = false
              simp [spawn, hne, h]
            · split
              · simp [hne, h]
              · split
                · simp [hne, h]
                · simp [hne, h]

/-- Claim C10: a worker exit with code 0 that leaves active nonzero and
does not hit the fatal branch causes no action at all: the slot is left
dead, nothing is respawned, the process does not exit, and along every
valid continuation the slot never holds a live worker again. -/
theorem c10_silent_exit (c : Cfg) (s : SupState) (id : Nat) (tr : List Ev)
    (h : s.procExit = none) (h0 : s.active - 1 ≠ 0)
    (h1 : ¬(s.active - 1 < 0 ∧ id = 0)) :
    (step c s (Ev.exit id 0)).live id = false ∧
    (step c s (Ev.exit id 0)).procExit = none ∧
    (step c s (Ev.exit id 0)).fatalMsg = s.fatalMsg ∧
    (step c s (Ev.exit id 0)).spawnLog = s.spawnLog ∧
    (step c s (Ev.exit id 0)).threads = s.threads ∧
    (validFrom c (step c s (Ev.exit id 0)) tr = true →
      (run c (step c s (Ev.exit id 0)) tr).live id = false) := by
  rw [step_exit_noact c s id h h0 h1]
  refine ⟨by simp, h, rfl, rfl, rfl, ?_⟩
  intro hv
  refine dead_stays_dead c id tr _ (by simp) hv

/-- Witness for c10_silent_exit: with both cfgA workers started, slot 1
exits with code 0; no action is taken and slot 1 stays dead along the valid
continuation of an online report from slot 0. -/
theorem c10_silent_exit_witness :
    (step cfgA sBothStarted (Ev.exit 1 0)).live 1 = false ∧
    (step cfgA sBothStarted (Ev.exit 1 0)).procExit = none ∧
    (step cfgA sBothStarted (Ev.exit 1 0)).spawnLog = sBothStarted.spawnLog ∧
    (run cfgA (step cfgA sBothStarted (Ev.exit 1 0)) [Ev.online 0]).live 1 = false := by
  have h10 := c10_silent_exit cfgA sBothStarted 1 [Ev.online 0]
    (by decide) (by decide) (by decide)
  exact ⟨h10.1, h10.2.1, h10.2.2.2.1, h10.2.2.2.2.2 (by decide)⟩

/-- Number of online events of a trace. -/
def onlineCount : List Ev → Nat
  | [] => 0
  | Ev.online _ :: tr => onlineCount tr + 1
  | _ :: tr => onlineCount tr

/-- Number of started event messages of a trace. -/
def startedCount : List Ev → Nat
  | [] => 0
  | Ev.eventMsg _ name :: tr =>
      (if name = startedName then 1 else 0) + startedCount tr
  | _ :: tr => startedCount tr

/-- Number of exit events of a trace. -/
def exitCount : List Ev → Nat
  | [] => 0
  | Ev.exit _ _ :: tr => exitCount tr + 1
  | _ :: tr => exitCount tr

/-- Along a valid trace the counters are exactly the event counts: starting
grows by one per online event and active by one per started message minus
one per exit. -/
lemma run_counters (c : Cfg) :
    ∀ (tr : List Ev) (s : SupState), validFrom c s tr = true →
      (run c s tr).starting = s.starting + onlineCount tr ∧
      (run c s tr).active =
        s.active + (startedCount tr : Int) - (exitCount tr : Int) := by
  intro tr
  induction tr with
  | nil =>
      intro s _
      exact ⟨rfl, by simp [run, startedCount, exitCount]⟩
  | cons e tr ih =>
      intro s hv
      simp only [validFrom, Bool.and_eq_true] at hv
      obtain ⟨hve, hvt⟩ := hv
      have hpe : s.procExit = none := by
        simp only [validEv, Bool.and_eq_true, Option.isNone_iff_eq_none] at hve
        exact hve.1
      have hx : s.procExit.isSome = false := by simp [hpe]
      obtain ⟨ihs, iha⟩ := ih (step c s e) hvt
      have hrun : run c s (e :: tr) = run c (step c s e) tr := rfl
      cases e with
      | online i =>
          have hs2 : (step c s (Ev.online i)).starting = s.starting + 1 := by
            simp only [step, hx, Bool.false_eq_true, if_false]
            split_ifs <;> rfl
          have ha2 : (step c s (Ev.online i)).active = s.active := by
            simp only [step, hx, Bool.false_eq_true, if_false]
            split_ifs <;> rfl
          refine ⟨?_, ?_⟩
          · rw [hrun, ihs, hs2]
            simp only [onlineCount]
            omega
          · rw [hrun, iha, ha2]
            simp only [startedCount, exitCount]
      | eventMsg i name =>
          have hs2 : (step c s (Ev.eventMsg i name)).starting = s.starting := by
            simp only [step, hx, Bool.false_eq_true, if_false]
            split_ifs <;> rfl
          have ha2 : (step c s (Ev.eventMsg i name)).active =
              s.active + (if name = startedName then 1 else 0) := by
            simp only [step, hx, Bool.false_eq_true, if_false]
            by_cases hname : name = startedName
            · simp only [hname, if_pos rfl, ite_not]
              split_ifs <;> simp
            · simp [hname]
          refine ⟨?_, ?_⟩
          · rw [hrun, ihs, hs2]
            simp only [onlineCount]
          · rw [hrun, iha, ha2]
            simp only [startedCount, exitCount]
            by_cases hname : name = startedName
            · simp only [hname, if_pos rfl]
              push_cast
              ring
            · simp only [hname, if_neg hname]
              push_cast
              ring
      | exit i code =>
          have hs2 : (step c s (Ev.exit i code)).starting = s.starting := by
            simp only [step, hx, Bool.false_eq_true, if_false]
            split_ifs <;> rfl
          have ha2 : (step c s (Ev.exit i code)).active = s.active - 1 := by
            simp only [step, hx, Bool.false_eq_true, if_false]
            split_ifs <;> rfl
          refine ⟨?_, ?_⟩
          · rw [hrun, ihs, hs2]
            simp only [onlineCount]
          · rw [hrun, iha, ha2]
            simp only [startedCount, exitCount]
            push_cast
            ring
      | deadline =>
          have hsame : (step c s Ev.deadline).starting = s.starting ∧
              (step c s Ev.deadline).active = s.active := by
            simp only [step, hx, Bool.false_eq_true, if_false]
            cases ht : s.timer with
            | none => exact ⟨rfl, rfl⟩
            | some tid =>
                refine ⟨?_, ?_⟩ <;> split_ifs <;> rfl
          refine ⟨?_, ?_⟩
          · rw [hrun, ihs, hsame.1]
            simp only [onlineCount]
          · rw [hrun, iha, hsame.2]
            simp only [startedCount, exitCount]

/-- Counterexample to claim C4: from the booted two-slot population of
cfgA, the single valid event of the pool worker at slot 1 exiting with
code 0 before any started signal drives active to -1, violating the bound
0 <= active. -/
theorem c4_bounds_counterexample :
    validFrom cfgA (boot cfgA) [Ev.exit 1 0] = true ∧
    (run cfgA (boot cfgA) [Ev.exit 1 0]).active = -1 ∧
    ¬(0 ≤ (run cfgA (boot cfgA) [Ev.exit 1 0]).active) := by
  refine ⟨by decide, by decide, by decide⟩

/-- Claim C4 as amended: the counters are not clamped to [0, count]; in
every reachable state they equal the plain event counts, starting being
the number of online events and active the number of started messages
minus the number of exits, so active turns negative when a worker exits
before starting and starting passes count when a respawned worker comes
online again. -/
theorem c4_amended_counter_values (c : Cfg) (s : SupState) (tr : List Ev)
    (h : validFrom c s tr = true) :
    (run c s tr).starting = s.starting + onlineCount tr ∧
    (run c s tr).active =
      s.active + (startedCount tr : Int) - (exitCount tr : Int) :=
  run_counters c tr s h

/-- Witness for c4_amended_counter_values: a crash-respawn trace of the
one-slot configuration cfgB whose replacement worker comes online again,
driving starting to 2 while count is 1. -/
theorem c4_amended_counter_values_witness :
    ((run cfgB (boot cfgB) [Ev.online 0, Ev.exit 0 7, Ev.online 0]).starting =
      (boot cfgB).starting + onlineCount [Ev.online 0, Ev.exit 0 7, Ev.online 0] ∧
    (run cfgB (boot cfgB) [Ev.online 0, Ev.exit 0 7, Ev.online 0]).active =
      (boot cfgB).active +
        (startedCount [Ev.online 0, Ev.exit 0 7, Ev.online 0] : Int) -
        (exitCount [Ev.online 0, Ev.exit 0 7, Ev.online 0] : Int)) ∧
    (run cfgB (boot cfgB) [Ev.online 0, Ev.exit 0 7, Ev.online 0]).starting = 2 ∧
    count cfgB = 1 := by
  refine ⟨c4_amended_counter_values cfgB (boot cfgB) _ (by decide), by decide, by decide⟩

/-- Bound on future warnings: current warnings plus one potential firing. -/
def warnMeasure (s : SupState) : Nat :=
  s.warnings.length + (if s.fired then 0 else 1)

/-- No step increases the warning measure: a warning is appended only when
the one-shot deadline fires, which also sets the fired flag forever. -/
lemma warnMeasure_step (c : Cfg) (s : SupState) (e : Ev) :
    warnMeasure (step c s e) ≤ warnMeasure s := by
  by_cases hx : s.procExit.isSome
  · simp [step, hx]
  · have hx2 : s.procExit.isSome = false := by simpa using hx
    cases e with
    | online i =>
        simp only [step, hx2, Bool.false_eq_true, if_false]
        split_ifs <;> exact le_refl _
    | eventMsg i name =>
        simp only [step, hx2, Bool.false_eq_true, if_false]
        split_ifs <;> exact le_refl _
    | exit i code =>
        simp only [step, hx2, Bool.false_eq_true, if_false]
        split_ifs <;> exact le_refl _
    | deadline =>
        simp only [step, hx2, Bool.false_eq_true, if_false]
        cases ht : s.timer with
        | none => exact le_refl _
        | some tid =>
            by_cases hf : s.fired
            · simp [hf]
            · have hf2 : s.fired = false := by simpa using hf
              simp only [hf2, Bool.false_eq_true, if_false]
              split_ifs <;> simp [warnMeasure, hf2]

/-- The warning measure never grows along any trace. -/
lemma warnMeasure_run (c : Cfg) :
    ∀ (tr : List Ev) (s : SupState), warnMeasure (run c s tr) ≤ warnMeasure s := by
  intro tr
  induction tr with
  | nil => intro s; exact le_refl _
  | cons e tr ih =>
      intro s
      exact le_trans (ih (step c s e)) (warnMeasure_step c s e)

/-- Once the timer is disarmed with starting at or past count, it can never
be rearmed, so no further warning is ever emitted. -/
lemma no_warn_after_disarm (c : Cfg) :
    ∀ (tr : List Ev) (s : SupState), count c ≤ s.starting → s.timer = none →
      (run c s tr).warnings = s.warnings := by
  intro tr
  induction tr with
  | nil => intro s _ _; rfl
  | cons e tr ih =>
      intro s hs ht
      have hw : (step c s e).warnings = s.warnings := by
        by_cases hx : s.procExit.isSome
        · simp [step, hx]
        · have hx2 : s.procExit.isSome = false := by simpa using hx
          cases e with
          | online i =>
              simp only [step, hx2, Bool.false_eq_true, if_false]
              split_ifs <;> rfl
          | eventMsg i name =>
              simp only [step, hx2, Bool.false_eq_true, if_false]
              split_ifs <;> rfl
          | exit i code =>
              simp only [step, hx2, Bool.false_eq_true, if_false]
              split_ifs <;> rfl
          | deadline =>
              simp only [step, hx2, Bool.false_eq_true, if_false, ht]
      have ht2 : (step c s e).timer = none := by
        by_cases hx : s.procExit.isSome
        · simp [step, hx, ht]
        · have hx2 : s.procExit.isSome = false := by simpa using hx
          cases e with
          | online i =>
              have hne : ¬(s.starting + 1 = count c) := by omega
              simp only [step, hx2, Bool.false_eq_true, if_false, if_neg hne]
              exact ht
          | eventMsg i name =>
              simp only [step, hx2, Bool.false_eq_true, if_false]
              split_ifs <;> first | rfl | exact ht
          | exit i code =>
              simp only [step, hx2, Bool.false_eq_true, if_false]
              split_ifs <;> exact ht
          | deadline =>
              simp only [step, hx2, Bool.false_eq_true, if_false, ht]
      have hs2 : count c ≤ (step c s e).starting := by
        by_cases hx : s.procExit.isSome
        · simp [step, hx]
          exact hs
        · have hx2 : s.procExit.isSome = false := by simpa using hx
          cases e with
          | online i =>
              have heq : (step c s (Ev.online i)).starting = s.starting + 1 := by
                simp only [step, hx2, Bool.false_eq_true, if_false]
                split_ifs <;> rfl
              omega
          | eventMsg i name =>
              have heq : (step c s (Ev.eventMsg i name)).starting = s.starting := by
                simp only [step, hx2, Bool.false_eq_true, if_false]
                split_ifs <;> rfl
              omega
          | exit i code =>
              have heq : (step c s (Ev.exit i code)).starting = s.starting := by
                simp only [step, hx2, Bool.false_eq_true, if_false]
                split_ifs <;> rfl
              omega
          | deadline =>
              have heq : (step c s Ev.deadline).starting = s.starting := by
                simp only [step, hx2, Bool.false_eq_true, if_false, ht]
              omega
      rw [show run c s (e :: tr) = run c (step c s e) tr from rfl, ih _ hs2 ht2, hw]

/-- Counterexample to claim C7: in cfgA, slot 1 comes online first and slot
0 last, so the timer is armed holding slot 0; slot 0 then reports started
while slot 1 never does; the deadline fires and the single warning names
slot 0 — a slot that has started — while the offending slot 1, live and
never started, is not named. -/
theorem c7_warning_names_counterexample :
    validFrom cfgA (boot cfgA)
      [Ev.online 1, Ev.online 0, Ev.eventMsg 0 startedName, Ev.deadline] = true ∧
    (run cfgA (boot cfgA)
      [Ev.online 1, Ev.online 0, Ev.eventMsg 0 startedName, Ev.deadline]).warnings = [0] ∧
    0 ∈ (run cfgA (boot cfgA)
      [Ev.online 1, Ev.online 0, Ev.eventMsg 0 startedName, Ev.deadline]).startedIds ∧
    1 ∉ (run cfgA (boot cfgA)
      [Ev.online 1, Ev.online 0, Ev.eventMsg 0 startedName, Ev.deadline]).startedIds ∧
    (run cfgA (boot cfgA)
      [Ev.online 1, Ev.online 0, Ev.eventMsg 0 startedName, Ev.deadline]).live 1 = true ∧
    (run cfgA (boot cfgA)
      [Ev.online 1, Ev.online 0, Ev.eventMsg 0 startedName, Ev.deadline]).procExit = none := by
  refine ⟨by decide, by decide, by decide, by decide, by decide, by decide⟩

/-- Claim C7 as amended: the timer is armed by the online report that
brings starting to count, holding that reporting slot; a started message
that brings active to count cancels an armed timer at that transition and,
once disarmed past the arming point, no warning is ever emitted afterwards;
if the deadline fires while active differs from count, exactly one warning
is appended, naming the arming slot (not necessarily an offending one),
and the process neither exits nor records a fatal condition from it; when
the deadline fires with active equal to count no warning is emitted; and
along any trace from boot at most one warning is ever emitted. -/
theorem c7_amended_startup_deadline (c : Cfg) (s : SupState) (i tid : Nat)
    (tr : List Ev) :
    (s.procExit = none → s.starting + 1 = count c →
      (step c s (Ev.online i)).timer = some i) ∧
    (s.procExit = none → s.timer.isSome = true →
      (step c s (Ev.eventMsg i startedName)).active = (count c : Int) →
      (step c s (Ev.eventMsg i startedName)).timer = none ∧
      (step c s (Ev.eventMsg i startedName)).warnings = s.warnings) ∧
    (count c ≤ s.starting → s.timer = none →
      (run c s tr).warnings = s.warnings) ∧
    (s.procExit = none → s.timer = some tid → s.fired = false →
      s.active ≠ (count c : Int) →
      (step c s Ev.deadline).warnings = s.warnings ++ [tid] ∧
      (step c s Ev.deadline).procExit = none ∧
      (step c s Ev.deadline).fatalMsg = s.fatalMsg ∧
      (step c s Ev.deadline).spawnLog = s.spawnLog) ∧
    (s.procExit = none → s.active = (count c : Int) →
      (step c s Ev.deadline).warnings = s.warnings) ∧
    (run c (boot c) tr).warnings.length ≤ 1 := by
  refine ⟨?_, ?_, ?_, ?_, ?_, ?_⟩
  · intro hpe harm
    have hx : s.procExit.isSome = false := by simp [hpe]
    simp only [step, hx, Bool.false_eq_true, if_false, if_pos harm]
  · intro hpe hsome hact
    have hx : s.procExit.isSome = false := by simp [hpe]
    have hnn : ¬(startedName ≠ startedName) := fun hne => hne rfl
    have hstep_active :
        (step c s (Ev.eventMsg i startedName)).active = s.active + 1 := by
      simp only [step, hx, Bool.false_eq_true, if_false, if_neg hnn]
      split_ifs <;> rfl
    rw [hstep_active] at hact
    simp only [step, hx, Bool.false_eq_true, if_false, if_neg hnn,
      if_pos (And.intro hact hsome)]
    simp
  · intro hs ht
    exact no_warn_after_disarm c tr s hs ht
  · intro hpe ht hf ha
    have hx : s.procExit.isSome = false := by simp [hpe]
    have hfneg : ¬(s.fired = true) := by simp [hf]
    simp only [step, hx, Bool.false_eq_true, if_false, ht, if_neg hfneg,
      if_pos ha]
    simp [hpe]
  · intro hpe ha
    have hx : s.procExit.isSome = false := by simp [hpe]
    have hne : ¬(s.active ≠ (count c : Int)) := fun hk => hk ha
    simp only [step, hx, Bool.false_eq_true, if_false]
    cases ht : s.timer with
    | none => rfl
    | some tid2 =>
        by_cases hf : s.fired
        · simp [hf]
        · simp [hf, hne]
  · have hb := bootK_fields c (count c)
    have hw : (boot c).warnings = [] := hb.2.2.2.2.2.1
    have hf : (boot c).fired = false := hb.2.2.2.2.2.2.1
    have h1 := warnMeasure_run c tr (boot c)
    have h2 : (run c (boot c) tr).warnings.length ≤ warnMeasure (run c (boot c) tr) := by
      simp [warnMeasure]
    have h3 : warnMeasure (boot c) = 1 := by
      simp [warnMeasure, hw, hf]
    omega

/-- Witness for c7_amended_startup_deadline: each conjunct at concrete
reachable states of cfgA and cfgB. -/
theorem c7_amended_startup_deadline_witness :
    (step cfgA (run cfgA (boot cfgA) [Ev.online 1]) (Ev.online 0)).timer = some 0 ∧
    (step cfgB (run cfgB (boot cfgB) [Ev.online 0])
      (Ev.eventMsg 0 startedName)).timer = none ∧
    (run cfgB (run cfgB (boot cfgB) [Ev.online 0, Ev.eventMsg 0 startedName])
      [Ev.deadline]).warnings =
      (run cfgB (boot cfgB) [Ev.online 0, Ev.eventMsg 0 startedName]).warnings ∧
    (step cfgA (run cfgA (boot cfgA) [Ev.online 1, Ev.online 0]) Ev.deadline).warnings =
      (run cfgA (boot cfgA) [Ev.online 1, Ev.online 0]).warnings ++ [0] ∧
    (step cfgB (run cfgB (boot cfgB) [Ev.online 0, Ev.eventMsg 0 startedName])
      Ev.deadline).warnings =
      (run cfgB (boot cfgB) [Ev.online 0, Ev.eventMsg 0 startedName]).warnings ∧
    (run cfgB (boot cfgB) [Ev.online 0, Ev.deadline]).warnings.length ≤ 1 := by
  refine ⟨?_, ?_, ?_, ?_, ?_, ?_⟩
  · exact (c7_amended_startup_deadline cfgA (run cfgA (boot cfgA) [Ev.online 1])
      0 0 []).1 (by decide) (by decide)
  · exact ((c7_amended_startup_deadline cfgB (run cfgB (boot cfgB) [Ev.online 0])
      0 0 []).2.1 (by decide) (by decide) (by decide)).1
  · exact (c7_amended_startup_deadline cfgB
      (run cfgB (boot cfgB) [Ev.online 0, Ev.eventMsg 0 startedName])
      0 0 [Ev.deadline]).2.2.1 (by decide) (by decide)
  · exact ((c7_amended_startup_deadline cfgA
      (run cfgA (boot cfgA) [Ev.online 1, Ev.online 0])
      0 0 []).2.2.2.1 (by decide) (by decide) (by decide) (by decide)).1
  · exact (c7_amended_startup_deadline cfgB
      (run cfgB (boot cfgB) [Ev.online 0, Ev.eventMsg 0 startedName])
      0 0 []).2.2.2.2.1 (by decide) (by decide)
  · exact (c7_amended_startup_deadline cfgB (boot cfgB)
      0 0 [Ev.online 0, Ev.deadline]).2.2.2.2.2

/-- The default message of the exit routine at line 24 of the source. -/
def defaultExitText : String :=
  "Can not start Application server"

/-- The empty replacement string. -/
def emptyText : String :=
  ""

/-- Strip the working directory prefix from a message, as
metautil.replace(message, PATH, empty) at line 25 of the source. -/
def stripPath (path msg : String) : String :=
  String.replace msg path emptyText

/-- Output of one logError call: the error-stream lines it prints and the
process exit code it requests, if any. -/
structure LogOut where
  lines : List String
  exitCode : Option Nat
deriving DecidableEq

/-- logError, lines 30 to 35 of the source, with the exit routine of lines
24 to 28 inlined: always print the typed error line; if finalization is
set, return; if initialization is still set, print the default fatal
message with the working directory stripped and exit the process with
code 1; otherwise return. -/
def logError (ty msg path : String) (finalFlag initFlag : Bool) : LogOut :=
  let line := ty ++ " error: " ++ msg
  if finalFlag then { lines := [line], exitCode := none }
  else if initFlag then
    { lines := [line, stripPath path defaultExitText], exitCode := some 1 }
  else { lines := [line], exitCode := none }

/-- Claim C8: every uncaught exception, runtime warning, or unhandled
rejection is printed with its type tag; during initialization (finalization
not yet begun) the process additionally prints the fatal message with the
working directory prefix stripped and exits with code 1; after
initialization is cleared and before finalization is set the error is
logged only and the process keeps running; once finalization is set the
error is logged only and nothing further happens, and this holds whatever
the initialization flag says, the finalization check coming first. -/
theorem c8_error_policy (ty msg path : String) :
    logError ty msg path false true =
      { lines := [ty ++ " error: " ++ msg, stripPath path defaultExitText],
        exitCode := some 1 } ∧
    logError ty msg path false false =
      { lines := [ty ++ " error: " ++ msg], exitCode := none } ∧
    (∀ initFlag, logError ty msg path true initFlag =
      { lines := [ty ++ " error: " ++ msg], exitCode := none }) := by
  exact ⟨rfl, rfl, fun _ => rfl⟩

end Impress
